import Mathlib

/-
Verification of the cache-key derivation and bypass-decision engine of the
`cf-worker-aelia` Cloudflare worker (src/index.js).

Modelling conventions:
* JavaScript strings are modelled as `List Char` (abbreviated `Str`); `str`
  converts a Lean string literal to this representation.
* JavaScript objects used as cookie jars are modelled as association lists
  whose keys are unique (`setJar` overwrites an existing binding in place,
  exactly as `cookies[name] = v` does).
* Fallible JavaScript builtins (`decodeURIComponent`, which throws `URIError`
  on malformed input) are modelled with `Except Unit`.
* A parsed `URL` object is modelled by the `JsURL` record of its components
  (`protocol` including the trailing colon, `host`, `pathname`, `search`
  including the leading question mark or empty).  `new URL(s)` applied to a
  string assembled from well-formed components recovers exactly those
  components, so the `new URL(baseKey)` step of `generateCacheKey` is embedded
  as a direct use of the components of its argument.
* `URLSearchParams` semantics follow the WHATWG URL standard:
  parsing splits the query on `&`, drops empty fragments, splits each
  fragment at the first `=`, applies `+`-to-space and lenient percent
  decoding; `set` replaces the value of the first pair with the given name,
  removes the other pairs with that name, or appends; serialization uses the
  application/x-www-form-urlencoded escape set with uppercase hex digits.
-/

abbrev Str : Type := List Char

def str (s : String) : Str := s.data

/-- JavaScript `x || d` for an optional string: `undefined` and `""` are falsy. -/
def jsOrL (v : Option Str) (d : Str) : Str :=
  match v with
  | some s => if s.isEmpty then d else s
  | none => d

/-- JavaScript `String.prototype.split` with a single-character separator
(`';'`, `'='`, `'&'` are the only separators used by the worker). -/
def splitOnChar (sep : Char) : Str → List Str
  | [] => [[]]
  | c :: cs =>
    if c = sep then [] :: splitOnChar sep cs
    else
      match splitOnChar sep cs with
      | f :: rest => (c :: f) :: rest
      | [] => [[c]]

/-- JavaScript `String.prototype.trim`: strip whitespace from both ends. -/
def jsTrim (l : Str) : Str :=
  ((l.dropWhile Char.isWhitespace).reverse.dropWhile Char.isWhitespace).reverse

/-- JavaScript `startsWith`. -/
def jsStartsWith (l p : Str) : Bool := p.isPrefixOf l

/-- JavaScript `endsWith`. -/
def jsEndsWith (l s : Str) : Bool := s.isSuffixOf l

/-- JavaScript `Array.prototype.join` with the given separator. -/
def jsJoin (sep : Str) : List Str → Str
  | [] => []
  | x :: xs => xs.foldl (fun acc s => acc ++ sep ++ s) x

/-- Value of a hexadecimal digit character (both cases accepted, as in the
ECMAScript URI-decoding grammar). -/
def hexVal (c : Char) : Option Nat :=
  if '0' ≤ c ∧ c ≤ '9' then some (c.toNat - 48)
  else if 'A' ≤ c ∧ c ≤ 'F' then some (c.toNat - 55)
  else if 'a' ≤ c ∧ c ≤ 'f' then some (c.toNat - 87)
  else none

/-- Uppercase hexadecimal digit for a value below 16. -/
def hexDigit (n : Nat) : Char := (str "0123456789ABCDEF").getD n '0'

/-- Escape `%XX` of one byte, uppercase hex as produced by the ECMAScript and
WHATWG encoders. -/
def percentByte (b : Nat) : Str := ['%', hexDigit (b / 16), hexDigit (b % 16)]

/-- UTF-8 encoding of one code point. -/
def utf8Encode (c : Char) : List Nat :=
  let n := c.toNat
  if n < 0x80 then [n]
  else if n < 0x800 then [0xC0 + n / 0x40, 0x80 + n % 0x40]
  else if n < 0x10000 then
    [0xE0 + n / 0x1000, 0x80 + n / 0x40 % 0x40, 0x80 + n % 0x40]
  else
    [0xF0 + n / 0x40000, 0x80 + n / 0x1000 % 0x40, 0x80 + n / 0x40 % 0x40,
      0x80 + n % 0x40]

/-- Characters left unescaped by `encodeURIComponent`:
ASCII alphanumerics and `- _ . ! ~ * ' ( )`. -/
def uriUnreserved (c : Char) : Bool :=
  c.isAlpha || c.isDigit || c = '-' || c = '_' || c = '.' || c = '!' ||
    c = '~' || c = '*' || c = Char.ofNat 39 || c = '(' || c = ')'

def encodeURIComponentChar (c : Char) : Str :=
  if uriUnreserved c then [c]
  else (utf8Encode c).foldr (fun b acc => percentByte b ++ acc) []

/-- JavaScript `encodeURIComponent` (total on `Char` inputs, which are always
valid code points). -/
def encodeURIComponent : Str → Str
  | [] => []
  | c :: cs => encodeURIComponentChar c ++ encodeURIComponent cs

/-- Is the byte a UTF-8 continuation byte `10xxxxxx`? -/
def isCont (b : Nat) : Bool := 0x80 ≤ b && b < 0xC0

/-- Decode one UTF-8 sequence from the front of a byte list: the decoded
code point and the remaining bytes; rejects truncated sequences, overlong
encodings, surrogates and code points above `0x10FFFF`. -/
def utf8Step : List Nat → Except Unit (Char × List Nat)
  | [] => .error ()
  | b :: bs =>
    if b < 0x80 then .ok (Char.ofNat b, bs)
    else if b < 0xC2 then .error ()
    else if b <= 0xDF then
      match bs with
      | b1 :: bs' =>
        if isCont b1 then .ok (Char.ofNat ((b - 0xC0) * 0x40 + (b1 - 0x80)), bs')
        else .error ()
      | [] => .error ()
    else if b <= 0xEF then
      match bs with
      | b1 :: b2 :: bs' =>
        if isCont b1 && isCont b2 && (b != 0xE0 || 0xA0 <= b1) &&
            (b != 0xED || b1 < 0xA0) then
          .ok (Char.ofNat ((b - 0xE0) * 0x1000 + (b1 - 0x80) * 0x40 +
            (b2 - 0x80)), bs')
        else .error ()
      | _ => .error ()
    else if b <= 0xF4 then
      match bs with
      | b1 :: b2 :: b3 :: bs' =>
        if isCont b1 && isCont b2 && isCont b3 && (b != 0xF0 || 0x90 <= b1) &&
            (b != 0xF4 || b1 < 0x90) then
          .ok (Char.ofNat ((b - 0xF0) * 0x40000 + (b1 - 0x80) * 0x1000 +
            (b2 - 0x80) * 0x40 + (b3 - 0x80)), bs')
        else .error ()
      | _ => .error ()
    else .error ()

/-- Worker of `utf8DecodeStrict`, structurally recursive on a fuel bound:
every step consumes at least one byte, so fuel equal to the input length is
always sufficient and the out-of-fuel branch is unreachable. -/
def utf8DecodeStrictGo : Nat → List Nat → Except Unit Str
  | _, [] => .ok []
  | 0, _ => .error ()
  | fuel + 1, b :: bs =>
    match utf8Step (b :: bs) with
    | .ok (c, rest) =>
      match utf8DecodeStrictGo fuel rest with
      | .ok r => .ok (c :: r)
      | .error e => .error e
    | .error e => .error e

/-- Strict UTF-8 decoding of a byte sequence, mirroring the validation
performed by `decodeURIComponent` (URIError on failure). -/
def utf8DecodeStrict (l : List Nat) : Except Unit Str :=
  utf8DecodeStrictGo l.length l

/-- Strict percent-unescaping to a byte sequence: a `%` must be followed by
two hexadecimal digits (else URIError); other characters contribute their
UTF-8 bytes. -/
def percentUnescape : Str → Except Unit (List Nat)
  | [] => .ok []
  | '%' :: h1 :: h2 :: cs =>
    match hexVal h1, hexVal h2 with
    | some a, some b =>
      match percentUnescape cs with
      | .ok r => .ok ((16 * a + b) :: r)
      | .error e => .error e
    | _, _ => .error ()
  | '%' :: _ => .error ()
  | c :: cs =>
    match percentUnescape cs with
    | .ok r => .ok (utf8Encode c ++ r)
    | .error e => .error e

/-- JavaScript `decodeURIComponent`: percent-unescape, then strictly decode
the resulting bytes as UTF-8; throws `URIError` (modelled as `Except.error`)
on malformed input. -/
def decodeURIComponent (s : Str) : Except Unit Str :=
  match percentUnescape s with
  | .ok bs => utf8DecodeStrict bs
  | .error e => .error e

/-- U+FFFD replacement character. -/
def replChar : Char := Char.ofNat 0xFFFD

/-- Does `b1` fit as first continuation byte after the lead byte `b`?
(continuation range plus the lead-specific restrictions ruling out overlong
encodings, surrogates and code points above `0x10FFFF`). -/
def contFits (b b1 : Nat) : Bool :=
  isCont b1 && (b ≠ 0xE0 || 0xA0 ≤ b1) && (b ≠ 0xED || b1 < 0xA0) &&
    (b ≠ 0xF0 || 0x90 ≤ b1) && (b ≠ 0xF4 || b1 < 0x90)

/-- Worker of `utf8DecodeReplace`, structurally recursive on a fuel bound:
every step consumes at least one byte, so fuel equal to the input length is
always sufficient and the out-of-fuel branch is unreachable. -/
def utf8DecodeReplaceGo : Nat → List Nat → Str
  | _, [] => []
  | 0, _ => []
  | fuel + 1, b :: bs =>
    if b < 0x80 then Char.ofNat b :: utf8DecodeReplaceGo fuel bs
    else if b < 0xC2 then replChar :: utf8DecodeReplaceGo fuel bs
    else if b ≤ 0xDF then
      match bs with
      | [] => [replChar]
      | b1 :: bs' =>
        if isCont b1 then
          Char.ofNat ((b - 0xC0) * 0x40 + (b1 - 0x80)) ::
            utf8DecodeReplaceGo fuel bs'
        else replChar :: utf8DecodeReplaceGo fuel (b1 :: bs')
    else if b ≤ 0xEF then
      match bs with
      | [] => [replChar]
      | [b1] =>
        if contFits b b1 then [replChar]
        else replChar :: utf8DecodeReplaceGo fuel [b1]
      | b1 :: b2 :: bs' =>
        if contFits b b1 then
          if isCont b2 then
            Char.ofNat ((b - 0xE0) * 0x1000 + (b1 - 0x80) * 0x40 + (b2 - 0x80)) ::
              utf8DecodeReplaceGo fuel bs'
          else replChar :: utf8DecodeReplaceGo fuel (b2 :: bs')
        else replChar :: utf8DecodeReplaceGo fuel (b1 :: b2 :: bs')
    else if b ≤ 0xF4 then
      match bs with
      | [] => [replChar]
      | [b1] =>
        if contFits b b1 then [replChar]
        else replChar :: utf8DecodeReplaceGo fuel [b1]
      | [b1, b2] =>
        if contFits b b1 then
          if isCont b2 then [replChar]
          else replChar :: utf8DecodeReplaceGo fuel [b2]
        else replChar :: utf8DecodeReplaceGo fuel [b1, b2]
      | b1 :: b2 :: b3 :: bs' =>
        if contFits b b1 then
          if isCont b2 then
            if isCont b3 then
              Char.ofNat ((b - 0xF0) * 0x40000 + (b1 - 0x80) * 0x1000 +
                (b2 - 0x80) * 0x40 + (b3 - 0x80)) :: utf8DecodeReplaceGo fuel bs'
            else replChar :: utf8DecodeReplaceGo fuel (b3 :: bs')
          else replChar :: utf8DecodeReplaceGo fuel (b2 :: b3 :: bs')
        else replChar :: utf8DecodeReplaceGo fuel (b1 :: b2 :: b3 :: bs')
    else replChar :: utf8DecodeReplaceGo fuel bs

/-- Lenient UTF-8 decoding with U+FFFD substitution for invalid sequences
(maximal-subpart resumption), as used by form-urlencoded query parsing;
never fails. -/
def utf8DecodeReplace (l : List Nat) : Str := utf8DecodeReplaceGo l.length l

/-- Lenient percent-unescaping: an invalid escape passes the `%` through as a
literal byte; other characters contribute their UTF-8 bytes. -/
def percentUnescapeLenient : Str → List Nat
  | [] => []
  | '%' :: h1 :: h2 :: cs =>
    match hexVal h1, hexVal h2 with
    | some a, some b => (16 * a + b) :: percentUnescapeLenient cs
    | _, _ => 0x25 :: percentUnescapeLenient (h1 :: h2 :: cs)
  | '%' :: cs => 0x25 :: percentUnescapeLenient cs
  | c :: cs => utf8Encode c ++ percentUnescapeLenient cs

/-- Lenient form-urlencoded decoding of a query-string component:
`+` becomes a space, then percent sequences are decoded leniently. -/
def formDecode (l : Str) : Str :=
  utf8DecodeReplace
    (percentUnescapeLenient (l.map fun c => if c = '+' then ' ' else c))

/-- Characters left unescaped by the application/x-www-form-urlencoded
serializer: ASCII alphanumerics and `* - . _`. -/
def formSafe (c : Char) : Bool :=
  c.isAlpha || c.isDigit || c = '*' || c = '-' || c = '.' || c = '_'

def formEncodeChar (c : Char) : Str :=
  if c = ' ' then ['+']
  else if formSafe c then [c]
  else (utf8Encode c).foldr (fun b acc => percentByte b ++ acc) []

/-- application/x-www-form-urlencoded serialization of one string. -/
def formEncodeStr : Str → Str
  | [] => []
  | c :: cs => formEncodeChar c ++ formEncodeStr cs

/-- Split a query fragment at its first `=`. -/
def splitFirstEq : Str → Str × Option Str
  | [] => ([], none)
  | '=' :: cs => ([], some cs)
  | c :: cs =>
    match splitFirstEq cs with
    | (a, b) => (c :: a, b)

/-- Parse an application/x-www-form-urlencoded query string (without the
leading question mark) into a list of name/value pairs (WHATWG URL
standard: split on `&`, skip empty fragments, split each fragment at the
first `=`, decode both sides leniently). -/
def parseQuery (l : Str) : List (Str × Str) :=
  (splitOnChar '&' l).filterMap fun frag =>
    if frag.isEmpty then none
    else
      match splitFirstEq frag with
      | (n, some v) => some (formDecode n, formDecode v)
      | (n, none) => some (formDecode n, [])

/-- Remove every pair with the given name. -/
def removeParam (n : Str) : List (Str × Str) → List (Str × Str)
  | [] => []
  | p :: ps => if p.1 = n then removeParam n ps else p :: removeParam n ps

/-- Method `URLSearchParams.prototype.set`: replace the value of the first pair with
this name and delete the others, or append a new pair at the end. -/
def setParam : List (Str × Str) → Str → Str → List (Str × Str)
  | [], n, v => [(n, v)]
  | p :: ps, n, v =>
    if p.1 = n then (n, v) :: removeParam n ps else p :: setParam ps n v

/-- Serialize a name/value list back to a query string. -/
def serializeParams (ps : List (Str × Str)) : Str :=
  jsJoin (str "&") (ps.map fun p => formEncodeStr p.1 ++ str "=" ++ formEncodeStr p.2)

/-- Components of a parsed JavaScript `URL` (as produced by `new URL(...)`).
`protocol` includes the trailing colon; `search` is empty or starts with a
question mark. -/
structure JsURL where
  protocol : Str
  host : Str
  pathname : Str
  search : Str
deriving DecidableEq, Repr

/-- The query-string body of `url.search` (drop the leading question mark). -/
def searchBody : Str → Str
  | '?' :: r => r
  | l => l

/-- Method `URL.prototype.toString` after the search parameters were rebuilt from a
name/value list: serializer of the WHATWG URL standard (no username, port or
fragment are in play for the cache keys of the worker). -/
def urlToString (protocol host pathname : Str) (ps : List (Str × Str)) : Str :=
  protocol ++ str "//" ++ host ++ pathname ++
    (if ps.isEmpty then [] else '?' :: serializeParams ps)

-- src/index.js lines 1-6
def WOOCOMMERCE_BYPASS_COOKIES : List Str :=
  [str "woocommerce_cart_hash", str "woocommerce_items_in_cart",
    str "wp_woocommerce_session_"]

-- src/index.js lines 8-12
def AELIA_CACHE_COOKIES : List Str :=
  [str "aelia_cs_selected_currency", str "aelia_customer_country"]

-- src/index.js line 15
def CACHE_TTL : Nat := 86400

/-- A cookie jar: the entries of the JavaScript object built by
`parseCookies` (keys unique, in insertion order). -/
abbrev Jar : Type := List (Str × Str)

/-- Lookup `cookies[name]` as an optional value. -/
def getCookie (cookies : Jar) (name : Str) : Option Str :=
  (cookies.find? fun p => p.1 = name).map (·.2)

/-- Assignment `cookies[name] = v`: overwrite an existing binding in place or append. -/
def setJar (jar : Jar) (n v : Str) : Jar :=
  if jar.any (fun p => p.1 = n) then
    jar.map fun p => if p.1 = n then (n, v) else p
  else jar ++ [(n, v)]

/-- Body of the `forEach` loop of `parseCookies` (src/index.js lines 119-124),
folded over the `;`-separated fragments: trim, split on `=`, take the first
two parts as name and value, keep the pair when both are truthy, decoding
the value with `decodeURIComponent` (whose URIError propagates). -/
def parseCookiesAux : List Str → Jar → Except Unit Jar
  | [], jar => .ok jar
  | frag :: rest, jar =>
    let t := jsTrim frag
    let parts := splitOnChar '=' t
    let name := parts.headD []
    match parts.get? 1 with
    | none => parseCookiesAux rest jar
    | some v =>
      if name.isEmpty || v.isEmpty then parseCookiesAux rest jar
      else
        match decodeURIComponent v with
        | .ok dv => parseCookiesAux rest (setJar jar name dv)
        | .error e => .error e

-- src/index.js lines 115-127
def parseCookies (cookieHeader : Str) : Except Unit Jar :=
  if cookieHeader.isEmpty then .ok []
  else parseCookiesAux (splitOnChar ';' cookieHeader) []

-- src/index.js lines 129-141
def shouldBypassCache (cookies : Jar) : Bool :=
  let cookieNames := cookies.map (·.1)
  WOOCOMMERCE_BYPASS_COOKIES.any fun pattern =>
    cookieNames.any fun cookieName =>
      if jsEndsWith pattern (str "_") then jsStartsWith cookieName pattern
      else cookieName = pattern

-- src/index.js lines 143-145
def isShopOrProductPath (pathname : Str) : Bool :=
  jsStartsWith pathname (str "/shop") || jsStartsWith pathname (str "/product/")

/-- Base key `${url.protocol}//${url.host}${url.pathname}${url.search}`
(src/index.js line 148). -/
def baseKey (url : JsURL) : Str :=
  url.protocol ++ str "//" ++ url.host ++ url.pathname ++ url.search

/-- The `aeliaCookieValues` string of src/index.js lines 151-153. -/
def aeliaCookieValues (cookies : Jar) : Str :=
  jsJoin (str "&")
    (AELIA_CACHE_COOKIES.map fun cookieName =>
      cookieName ++ str "=" ++ jsOrL (getCookie cookies cookieName) (str "default"))

-- src/index.js lines 147-162
def generateCacheKey (url : JsURL) (cookies : Jar) : Str :=
  if isShopOrProductPath url.pathname then
    urlToString url.protocol url.host url.pathname
      (setParam (parseQuery (searchBody url.search)) (str "aelia_cache")
        (encodeURIComponent (aeliaCookieValues cookies)))
  else baseKey url

/-- An HTTP response: status line, headers and body.  `new Response(body,
init)` copying is modelled by record update. -/
structure JsResponse where
  status : Nat
  statusText : Str
  headers : List (Str × Str)
  body : Str
deriving DecidableEq, Repr

/-- An inbound HTTP request: method, parsed URL and the `Cookie` header
(`none` when absent). -/
structure JsRequest where
  method : Str
  url : JsURL
  cookieHeader : Option Str
deriving DecidableEq, Repr

/-- Lowercased header name, for the case-insensitive name matching of the
Fetch `Headers` class. -/
def lowerStr (l : Str) : Str := l.map Char.toLower

/-- Method `Headers.prototype.get` (case-insensitive). -/
def headersGet (hs : List (Str × Str)) (n : Str) : Option Str :=
  (hs.find? fun p => lowerStr p.1 = lowerStr n).map (·.2)

def headersRemove (n : Str) : List (Str × Str) → List (Str × Str)
  | [] => []
  | p :: ps =>
    if lowerStr p.1 = lowerStr n then headersRemove n ps
    else p :: headersRemove n ps

/-- Method `Headers.prototype.set`: replace the first matching header (removing any
further matches) or append. -/
def headersSet : List (Str × Str) → Str → Str → List (Str × Str)
  | [], n, v => [(n, v)]
  | p :: ps, n, v =>
    if lowerStr p.1 = lowerStr n then (n, v) :: headersRemove n ps
    else p :: headersSet ps n v

/-- Predicate `response.ok`: status in the 200-299 range. -/
def responseOk (r : JsResponse) : Bool := 200 ≤ r.status && r.status < 300

/-- The I/O operations the worker performs, in order of execution. -/
inductive Effect where
  /-- Lookup `cache.match(cacheKey)` on `caches.default`. -/
  | cacheMatch (key : Str)
  /-- Call `fetch(request)` without caching hints (`fetchFromOrigin`). -/
  | fetchPlain
  /-- Call `fetch(request, { cf: ... })` with the TTL-by-status hints. -/
  | fetchCf
  /-- Write `ctx.waitUntil(cache.put(cacheKey, cachedResponse))`. -/
  | cachePut (key : Str) (resp : JsResponse)
deriving DecidableEq, Repr

/-- Environment of one request: what the cache store and the origin would
answer (the two suspension points of the worker). -/
structure World where
  /-- Result of `cache.match` for a given cache key. -/
  cacheLookup : Str → Option JsResponse
  /-- Response of `fetch(request)` (plain origin fetch). -/
  origin : JsResponse
  /-- Response of `fetch(request, { cf: ... })` (origin fetch with hints). -/
  originCf : JsResponse

-- src/index.js lines 164-167
def fetchFromOrigin (w : World) : JsResponse × List Effect :=
  (w.origin, [Effect.fetchPlain])

/-- The copy stored in the cache on a successful miss (src/index.js lines
86-103): clone of the origin response with a stamped `Cache-Control` header. -/
def cachedCopy (r : JsResponse) : JsResponse :=
  { r with
    headers := headersSet r.headers (str "Cache-Control")
      (str "public, max-age=" ++ str (toString CACHE_TTL)) }

/-- The cookie-independent part of `handleRequest` (src/index.js lines 28-113)
after the cookies were parsed: bypass checks, cache lookup, and the hit/miss
paths, returning the response together with the I/O effects performed. -/
def dispatch (w : World) (req : JsRequest) (cookies : Jar) :
    JsResponse × List Effect :=
  if req.method ≠ str "GET" then fetchFromOrigin w
  else if jsStartsWith req.url.pathname (str "/my-account") then
    fetchFromOrigin w
  else if shouldBypassCache cookies then fetchFromOrigin w
  else
    let cacheKey := generateCacheKey req.url cookies
    match w.cacheLookup cacheKey with
    | some response =>
      ({ response with
          headers := headersSet
            (headersSet response.headers (str "CF-Cache-Status") (str "HIT"))
            (str "X-Cache-Key") cacheKey },
        [Effect.cacheMatch cacheKey])
    | none =>
      let response := w.originCf
      let effects := [Effect.cacheMatch cacheKey, Effect.fetchCf] ++
        (if responseOk response then
          [Effect.cachePut cacheKey (cachedCopy response)]
        else [])
      let cfCacheStatus :=
        jsOrL (headersGet response.headers (str "cf-cache-status")) (str "MISS")
      ({ response with
          headers := headersSet
            (headersSet
              (headersSet response.headers (str "CF-Cache-Status") cfCacheStatus)
              (str "X-Cache-Key") cacheKey)
            (str "X-Worker-Cache") (str "MISS") },
        effects)

/-- Function `handleRequest` (src/index.js lines 28-113): parse the cookies (a
`URIError` from `decodeURIComponent` propagates) and dispatch. -/
def handleRequest (w : World) (req : JsRequest) :
    Except Unit (JsResponse × List Effect) :=
  match parseCookies (jsOrL req.cookieHeader []) with
  | .ok cookies => .ok (dispatch w req cookies)
  | .error e => .error e

/-- The exported `fetch` handler (src/index.js lines 17-26): any exception is
converted to a generic 500 response; no effects were performed when parsing
threw. -/
def workerFetch (w : World) (req : JsRequest) : JsResponse × List Effect :=
  match handleRequest w req with
  | .ok r => r
  | .error _ =>
    ({ status := 500, statusText := [], headers := [],
        body := str "Internal Server Error" }, [])

theorem encodeURIComponent_append (a b : Str) :
    encodeURIComponent (a ++ b) = encodeURIComponent a ++ encodeURIComponent b := by
  induction a with
  | nil => rfl
  | cons c cs ih => simp [encodeURIComponent, ih]

theorem formEncodeStr_append (a b : Str) :
    formEncodeStr (a ++ b) = formEncodeStr a ++ formEncodeStr b := by
  induction a with
  | nil => rfl
  | cons c cs ih => simp [formEncodeStr, ih]

/-- The product-page URL of end-to-end scenario A. -/
def productURL : JsURL := ⟨str "https:", str "host", str "/product/widget-1", str ""⟩

/-- C1: the claim reads the derived key as the base URL with
`aelia_cache=<percent-encoding of the joined variant string>`; the code in
fact passes the `encodeURIComponent` output through `searchParams.set`, whose
serializer escapes the percent signs a second time, so the single-encoded
key of the claim is not the derived key. -/
theorem c1_counterexample :
    generateCacheKey productURL [] ≠
      str "https://host/product/widget-1?aelia_cache=" ++
        encodeURIComponent
          (str "aelia_cs_selected_currency=default&aelia_customer_country=default") := by
  decide

/-- C1 (amended): for a GET of `/product/widget-1` with an empty cookie jar
the derived key is the base URL with the added parameter `aelia_cache` whose
serialized token is the percent-encoding of
`aelia_cs_selected_currency=default&aelia_customer_country=default`
re-escaped once more by the query serializer (`%` to `%25`); equivalently,
form-decoding the token of the derived key yields exactly the
percent-encoding of that joined string. -/
theorem c1_key :
    generateCacheKey productURL [] =
      str "https://host/product/widget-1?aelia_cache=aelia_cs_selected_currency%253Ddefault%2526aelia_customer_country%253Ddefault"
    ∧ parseQuery
        (str "aelia_cache=aelia_cs_selected_currency%253Ddefault%2526aelia_customer_country%253Ddefault") =
      [(str "aelia_cache",
        encodeURIComponent
          (str "aelia_cs_selected_currency=default&aelia_customer_country=default"))] := by
  constructor
  · decide
  · decide

/-- C4: for every URL whose path starts with neither `/shop` nor `/product/`,
the derived key is exactly the base key, independently of the cookie jar. -/
theorem c4_plain_path_key (u : JsURL) (j j' : Jar)
    (h1 : jsStartsWith u.pathname (str "/shop") = false)
    (h2 : jsStartsWith u.pathname (str "/product/") = false) :
    generateCacheKey u j = baseKey u ∧
      generateCacheKey u j' = generateCacheKey u j := by
  have hp : isShopOrProductPath u.pathname = false := by
    simp [isShopOrProductPath, h1, h2]
  constructor <;> simp [generateCacheKey, hp]

theorem c4_plain_path_key_witness :
    generateCacheKey ⟨str "https:", str "host", str "/about-us", str ""⟩
        [(str "aelia_cs_selected_currency", str "USD")] =
      baseKey ⟨str "https:", str "host", str "/about-us", str ""⟩ ∧
    generateCacheKey ⟨str "https:", str "host", str "/about-us", str ""⟩
        [(str "aelia_cs_selected_currency", str "EUR")] =
      generateCacheKey ⟨str "https:", str "host", str "/about-us", str ""⟩
        [(str "aelia_cs_selected_currency", str "USD")] :=
  c4_plain_path_key ⟨str "https:", str "host", str "/about-us", str ""⟩
    [(str "aelia_cs_selected_currency", str "USD")]
    [(str "aelia_cs_selected_currency", str "EUR")] (by decide) (by decide)

/-- C5: `shouldBypassCache` holds exactly when the jar has a cookie named
`woocommerce_cart_hash` or `woocommerce_items_in_cart`, or one whose name
starts with `wp_woocommerce_session_` (any suffix, the empty one included);
it is false on the empty jar. -/
theorem c5_bypass_iff (cookies : Jar) :
    (shouldBypassCache cookies = true ↔
      ∃ p ∈ cookies, p.1 = str "woocommerce_cart_hash" ∨
        p.1 = str "woocommerce_items_in_cart" ∨
        jsStartsWith p.1 (str "wp_woocommerce_session_") = true)
    ∧ shouldBypassCache [(str "wp_woocommerce_session_", str "s")] = true
    ∧ shouldBypassCache [] = false := by
  refine ⟨?_, by decide, by decide⟩
  have e1 : jsEndsWith (str "woocommerce_cart_hash") (str "_") = false := by decide
  have e2 : jsEndsWith (str "woocommerce_items_in_cart") (str "_") = false := by decide
  have e3 : jsEndsWith (str "wp_woocommerce_session_") (str "_") = true := by decide
  simp only [shouldBypassCache, WOOCOMMERCE_BYPASS_COOKIES, List.any_cons,
    List.any_nil, e1, e2, e3, if_true, if_false, Bool.or_false,
    Bool.or_eq_true, List.any_eq_true, List.mem_map]
  constructor
  · rintro (⟨n, ⟨p, hp, rfl⟩, hn⟩ | ⟨n, ⟨p, hp, rfl⟩, hn⟩ | ⟨n, ⟨p, hp, rfl⟩, hn⟩)
    · exact ⟨p, hp, Or.inl (by simpa using hn)⟩
    · exact ⟨p, hp, Or.inr (Or.inl (by simpa using hn))⟩
    · exact ⟨p, hp, Or.inr (Or.inr hn)⟩
  · rintro ⟨p, hp, h | h | h⟩
    · exact Or.inl ⟨p.1, ⟨p, hp, rfl⟩, by simpa using h⟩
    · exact Or.inr (Or.inl ⟨p.1, ⟨p, hp, rfl⟩, by simpa using h⟩)
    · exact Or.inr (Or.inr ⟨p.1, ⟨p, hp, rfl⟩, h⟩)

theorem splitOnChar_not_mem (sep : Char) (l : Str) (h : sep ∉ l) :
    splitOnChar sep l = [l] := by
  induction l with
  | nil => rfl
  | cons c cs ih =>
    have hc : ¬(c = sep) := fun e => h (by rw [e]; exact List.mem_cons_self _ _)
    have hcs : sep ∉ cs := fun m => h (List.mem_cons_of_mem _ m)
    simp [splitOnChar, hc, ih hcs]

theorem splitOnChar_append (sep : Char) (a b : Str) (h : sep ∉ a) :
    splitOnChar sep (a ++ sep :: b) = a :: splitOnChar sep b := by
  induction a with
  | nil => simp [splitOnChar]
  | cons c cs ih =>
    have hc : ¬(c = sep) := fun e => h (by rw [e]; exact List.mem_cons_self _ _)
    have hcs : sep ∉ cs := fun m => h (List.mem_cons_of_mem _ m)
    simp [splitOnChar, hc, ih hcs]

theorem splitFirstEq_cons (c : Char) (cs : Str) (hc : ¬(c = '=')) :
    splitFirstEq (c :: cs) = (c :: (splitFirstEq cs).1, (splitFirstEq cs).2) := by
  cases cs <;> simp [splitFirstEq, hc]

theorem splitFirstEq_not_mem (l : Str) (h : '=' ∉ l) :
    splitFirstEq l = (l, none) := by
  induction l with
  | nil => rfl
  | cons c cs ih =>
    have hc : ¬(c = '=') := fun e => h (by rw [e]; exact List.mem_cons_self _ _)
    have hcs : '=' ∉ cs := fun m => h (List.mem_cons_of_mem _ m)
    rw [splitFirstEq_cons _ _ hc, ih hcs]

theorem splitFirstEq_append (a b : Str) (h : '=' ∉ a) :
    splitFirstEq (a ++ '=' :: b) = (a, some b) := by
  induction a with
  | nil => simp [splitFirstEq]
  | cons c cs ih =>
    have hc : ¬(c = '=') := fun e => h (by rw [e]; exact List.mem_cons_self _ _)
    have hcs : '=' ∉ cs := fun m => h (List.mem_cons_of_mem _ m)
    rw [List.cons_append, splitFirstEq_cons _ _ hc, ih hcs]

theorem parseQuery_single_pair (n v : Str) (hn : n ≠ []) (hnA : '&' ∉ n)
    (hnE : '=' ∉ n) (hv : '&' ∉ v) :
    parseQuery (n ++ '=' :: v) = [(formDecode n, formDecode v)] := by
  have hmem : '&' ∉ n ++ '=' :: v := by
    intro m
    rcases List.mem_append.mp m with m1 | m2
    · exact hnA m1
    · rcases List.mem_cons.mp m2 with e | m3
      · exact absurd e (by decide)
      · exact hv m3
  have hne : (n ++ '=' :: v).isEmpty = false := by
    cases n with
    | nil => exact absurd rfl hn
    | cons c cs => rfl
  unfold parseQuery
  rw [splitOnChar_not_mem _ _ hmem]
  simp only [List.filterMap, hne, Bool.false_eq_true, if_false,
    splitFirstEq_append _ _ hnE]

/-- The `/shop` URL with a given raw search string. -/
def shopURL (search : Str) : JsURL := ⟨str "https:", str "host", str "/shop", search⟩

/-- C9: on a variant-sensitive path the synthetic `aelia_cache` parameter
overwrites any user-supplied one: `/shop` and `/shop?aelia_cache=x` are
different URLs yielding the same key under the same jar, and more generally
any user-supplied `aelia_cache` value (not containing `&`) has no influence
on the derived key. -/
theorem c9_user_aelia_cache_overwritten :
    shopURL (str "?aelia_cache=x") ≠ shopURL (str "") ∧
    (∀ j : Jar, generateCacheKey (shopURL (str "?aelia_cache=x")) j =
      generateCacheKey (shopURL (str "")) j) ∧
    (∀ (v : Str) (j : Jar), '&' ∉ v →
      generateCacheKey (shopURL ('?' :: (str "aelia_cache=" ++ v))) j =
        generateCacheKey (shopURL (str "")) j) := by
  have hgen : ∀ (v : Str) (j : Jar), '&' ∉ v →
      generateCacheKey (shopURL ('?' :: (str "aelia_cache=" ++ v))) j =
        generateCacheKey (shopURL (str "")) j := by
    intro v j hv
    have hA : str "aelia_cache=" ++ v = str "aelia_cache" ++ '=' :: v := by
      rw [show str "aelia_cache=" = str "aelia_cache" ++ ['='] from by decide,
        List.append_assoc]
      rfl
    have hq : parseQuery (str "aelia_cache=" ++ v) =
        [(str "aelia_cache", formDecode v)] := by
      rw [hA, parseQuery_single_pair (str "aelia_cache") v (by decide) (by decide)
        (by decide) hv,
        show formDecode (str "aelia_cache") = str "aelia_cache" from by decide]
    have hshop : isShopOrProductPath (str "/shop") = true := by decide
    have hsb1 : searchBody ('?' :: (str "aelia_cache=" ++ v)) =
        str "aelia_cache=" ++ v := rfl
    have hsb2 : parseQuery (searchBody (str "")) = [] := by decide
    simp only [generateCacheKey, shopURL, hshop, if_true, hsb1, hq, hsb2,
      eq_self_iff_true]
    rw [show ∀ t, setParam [(str "aelia_cache", formDecode v)] (str "aelia_cache") t
        = [(str "aelia_cache", t)] from fun t => by simp [setParam, removeParam]]
    rfl
  refine ⟨by decide, ?_, hgen⟩
  intro j
  rw [show shopURL (str "?aelia_cache=x") =
    shopURL ('?' :: (str "aelia_cache=" ++ str "x")) from by decide]
  exact hgen (str "x") j (by decide)

theorem c9_user_aelia_cache_overwritten_witness :
    generateCacheKey (shopURL ('?' :: (str "aelia_cache=" ++ str "y"))) [] =
      generateCacheKey (shopURL (str "")) [] :=
  c9_user_aelia_cache_overwritten.2.2 (str "y") [] (by decide)

/-- The URL of the C3 scenario: `/shop/spare-parts?sort=price`. -/
def uC3 : JsURL :=
  ⟨str "https:", str "host", str "/shop/spare-parts", str "?sort=price"⟩

/-- The part of the C3 cache key that precedes the (encoded) country cookie
value, as a function of the currency cookie value `x`. -/
def keyPreC3 (x : Str) : Str :=
  str "https:" ++ str "//" ++ str "host" ++ str "/shop/spare-parts" ++
    '?' :: (formEncodeStr (str "sort") ++ str "=" ++ formEncodeStr (str "price") ++
      str "&" ++ formEncodeStr (str "aelia_cache") ++ str "=" ++
      formEncodeStr (encodeURIComponent (str "aelia_cs_selected_currency")) ++
      formEncodeStr (encodeURIComponent (str "=")) ++
      formEncodeStr (encodeURIComponent x) ++
      formEncodeStr (encodeURIComponent (str "&")) ++
      formEncodeStr (encodeURIComponent (str "aelia_customer_country")) ++
      formEncodeStr (encodeURIComponent (str "=")))

theorem genKeyC3_shape (j : Jar) (x : Str)
    (hx : getCookie j (str "aelia_cs_selected_currency") = some x)
    (hxe : x.isEmpty = false) :
    generateCacheKey uC3 j =
      keyPreC3 x ++ formEncodeStr (encodeURIComponent
        (jsOrL (getCookie j (str "aelia_customer_country")) (str "default"))) := by
  have hshop : isShopOrProductPath (str "/shop/spare-parts") = true := by decide
  have hparse : parseQuery (searchBody (str "?sort=price")) =
      [(str "sort", str "price")] := by decide
  have hset : ∀ t, setParam [(str "sort", str "price")] (str "aelia_cache") t =
      [(str "sort", str "price"), (str "aelia_cache", t)] := by
    intro t
    simp only [setParam]
    rw [if_neg (by decide)]
  simp only [generateCacheKey, uC3, hshop, if_true, hparse, hset,
    aeliaCookieValues, AELIA_CACHE_COOKIES, List.map, jsJoin, List.foldl, hx,
    jsOrL, hxe, Bool.false_eq_true, if_false, urlToString, serializeParams,
    List.isEmpty_cons, keyPreC3, encodeURIComponent_append,
    formEncodeStr_append, List.append_assoc, List.cons_append, List.nil_append]
  rw [show formDecode ['s', 'o', 'r', 't'] = str "sort" from by decide,
    show formDecode ['p', 'r', 'i', 'c', 'e'] = str "price" from by decide]

set_option maxRecDepth 100000 in
/-- C3: for the URL `/shop/spare-parts?sort=price`, two cookie jars that
differ only in the value of `aelia_cs_selected_currency` (`USD` versus
`EUR`) produce two different cache keys. -/
theorem c3_currency_changes_key (j1 j2 : Jar)
    (hdiff : ∀ n : Str, n ≠ str "aelia_cs_selected_currency" →
      getCookie j1 n = getCookie j2 n)
    (h1 : getCookie j1 (str "aelia_cs_selected_currency") = some (str "USD"))
    (h2 : getCookie j2 (str "aelia_cs_selected_currency") = some (str "EUR")) :
    generateCacheKey uC3 j1 ≠ generateCacheKey uC3 j2 := by
  intro hEq
  rw [genKeyC3_shape j1 (str "USD") h1 (by decide),
    genKeyC3_shape j2 (str "EUR") h2 (by decide),
    hdiff (str "aelia_customer_country") (by decide)] at hEq
  have hlen : (keyPreC3 (str "USD")).length = (keyPreC3 (str "EUR")).length := by
    decide
  exact absurd (List.append_inj_left hEq hlen) (by decide)

set_option maxRecDepth 100000 in
theorem c3_currency_changes_key_witness :
    generateCacheKey uC3 [(str "aelia_cs_selected_currency", str "USD")] ≠
      generateCacheKey uC3 [(str "aelia_cs_selected_currency", str "EUR")] :=
  c3_currency_changes_key
    [(str "aelia_cs_selected_currency", str "USD")]
    [(str "aelia_cs_selected_currency", str "EUR")]
    (fun n hn => by
      have he : (str "aelia_cs_selected_currency" = n) = False :=
        eq_false fun h => hn h.symm
      simp [getCookie, List.find?, he])
    (by decide) (by decide)

theorem dropWhile_of_none (p : Char → Bool) (l : Str)
    (h : ∀ c ∈ l, p c = false) : l.dropWhile p = l := by
  cases l with
  | nil => rfl
  | cons c cs => simp [List.dropWhile_cons, h c (List.mem_cons_self c cs)]

theorem jsTrim_no_ws (l : Str) (h : ∀ c ∈ l, c.isWhitespace = false) :
    jsTrim l = l := by
  unfold jsTrim
  rw [dropWhile_of_none _ _ h,
    dropWhile_of_none _ _ (fun c hc => h c (List.mem_reverse.mp hc)),
    List.reverse_reverse]

theorem utf8Encode_ne_nil (c : Char) : utf8Encode c ≠ [] := by
  simp only [utf8Encode]
  split
  · simp
  · split
    · simp
    · split <;> simp

theorem percentUnescape_ok_ne_nil (c : Char) (cs : Str) (bs : List Nat)
    (h : percentUnescape (c :: cs) = .ok bs) : bs ≠ [] := by
  unfold percentUnescape at h
  split at h
  · simp_all
  · split at h
    · split at h
      · simp only [Except.ok.injEq] at h
        exact h ▸ List.cons_ne_nil _ _
      · exact absurd h (by simp)
    · exact absurd h (by simp)
  · exact absurd h (by simp)
  · split at h
    · simp only [Except.ok.injEq] at h
      intro he
      rw [he] at h
      exact utf8Encode_ne_nil _ (List.append_eq_nil.mp h).1
    · exact absurd h (by simp)

theorem utf8DecodeStrict_ok_ne_nil (b : Nat) (bs : List Nat) (out : Str)
    (h : utf8DecodeStrict (b :: bs) = .ok out) : out ≠ [] := by
  unfold utf8DecodeStrict at h
  rw [List.length_cons] at h
  unfold utf8DecodeStrictGo at h
  split at h
  · split at h
    · simp only [Except.ok.injEq] at h
      exact h ▸ List.cons_ne_nil _ _
    · exact Except.noConfusion h
  · exact Except.noConfusion h

theorem decodeURIComponent_ok_ne_nil (v dv : Str) (hv : v ≠ [])
    (h : decodeURIComponent v = .ok dv) : dv ≠ [] := by
  unfold decodeURIComponent at h
  cases hbs : percentUnescape v with
  | error e => rw [hbs] at h; exact absurd h (by simp)
  | ok bs =>
    rw [hbs] at h
    cases v with
    | nil => exact absurd rfl hv
    | cons c cs =>
      have hbne := percentUnescape_ok_ne_nil c cs bs hbs
      cases bs with
      | nil => exact absurd rfl hbne
      | cons b bs' => exact utf8DecodeStrict_ok_ne_nil b bs' dv h

theorem isEmpty_false_ne_nil (l : Str) (h : l.isEmpty = false) : l ≠ [] := by
  intro e
  rw [e] at h
  exact absurd h (by decide)

theorem setJar_mem (jar : Jar) (n v : Str) (p : Str × Str)
    (hp : p ∈ setJar jar n v) : p ∈ jar ∨ p = (n, v) := by
  unfold setJar at hp
  split at hp
  · rcases List.mem_map.mp hp with ⟨q, hq, he⟩
    by_cases h : q.1 = n
    · right
      rw [← he, if_pos h]
    · left
      rw [← he, if_neg h]
      exact hq
  · rcases List.mem_append.mp hp with h | h
    · exact Or.inl h
    · exact Or.inr (by simpa using h)

theorem parseCookiesAux_nonempty (frags : List Str) (jar out : Jar)
    (hjar : ∀ p ∈ jar, p.1 ≠ [] ∧ p.2 ≠ [])
    (h : parseCookiesAux frags jar = .ok out) :
    ∀ p ∈ out, p.1 ≠ [] ∧ p.2 ≠ [] := by
  induction frags generalizing jar with
  | nil =>
    unfold parseCookiesAux at h
    simp only [Except.ok.injEq] at h
    exact h ▸ hjar
  | cons frag rest ih =>
    unfold parseCookiesAux at h
    dsimp only at h
    split at h
    · exact ih jar hjar h
    · split at h
      · exact ih jar hjar h
      · rename_i hval hcond
        split at h
        · rename_i dv hdec
          refine ih _ ?_ h
          intro p hp
          rcases setJar_mem _ _ _ _ hp with hin | he
          · exact hjar p hin
          · rw [he]
            simp only [Bool.not_eq_true, Bool.or_eq_false_iff] at hcond
            refine ⟨isEmpty_false_ne_nil _ hcond.1, ?_⟩
            exact decodeURIComponent_ok_ne_nil _ _
              (isEmpty_false_ne_nil _ hcond.2) hdec
        · exact Except.noConfusion h

/-- C6: every jar successfully returned by `parseCookies` contains no entry
with an empty name or an empty value, and the empty cookie header (the
`request.headers.get` fallback for an absent one) yields the empty jar. -/
theorem c6_no_empty_entries :
    (∀ (H : Str) (jar : Jar), parseCookies H = .ok jar →
      ∀ p ∈ jar, p.1 ≠ [] ∧ p.2 ≠ []) ∧
    parseCookies (str "") = .ok [] ∧
    parseCookies (jsOrL (none : Option Str) []) = .ok [] := by
  refine ⟨?_, by rfl, by rfl⟩
  intro H jar h
  unfold parseCookies at h
  split at h
  · simp only [Except.ok.injEq] at h
    intro p hp
    rw [← h] at hp
    exact absurd hp (List.not_mem_nil p)
  · exact parseCookiesAux_nonempty _ [] jar (by simp) h

theorem c6_no_empty_entries_witness :
    (str "a", str "b").1 ≠ [] ∧ (str "a", str "b").2 ≠ [] :=
  c6_no_empty_entries.1 (str "a=b") [(str "a", str "b")] (by rfl)
    (str "a", str "b") (by simp)

/-- C7: the claim says the parser keeps everything after the first `=` as
the value, so `a=b=c` would store value `b=c`; the code destructures the
full `split('=')` array into its first two elements, so it stores `b`. -/
theorem c7_counterexample :
    parseCookies (str "a=b=c") = .ok [(str "a", str "b")] ∧
    [(str "a", str "b")] ≠ [(str "a", str "b=c")] :=
  ⟨by rfl, by decide⟩

/-- C7 (amended): the parser splits the header on `;` and trims each
fragment (as claimed), but then splits the fragment on every `=` and keeps
only the first two parts: for a fragment `n=v1=v2` the stored value is the
decoding of `v1` alone, the `=v2` tail being discarded. -/
theorem c7_value_from_first_part (n v1 v2 dv : Str)
    (hn : n ≠ []) (hv1 : v1 ≠ [])
    (hnm : ∀ c ∈ n, c ≠ ';' ∧ c ≠ '=' ∧ c.isWhitespace = false)
    (hv1m : ∀ c ∈ v1, c ≠ ';' ∧ c ≠ '=' ∧ c.isWhitespace = false)
    (hv2m : ∀ c ∈ v2, c ≠ ';' ∧ c ≠ '=' ∧ c.isWhitespace = false)
    (hdec : decodeURIComponent v1 = .ok dv) :
    parseCookies (n ++ '=' :: (v1 ++ '=' :: v2)) = .ok [(n, dv)] := by
  have hmem : ∀ c ∈ n ++ '=' :: (v1 ++ '=' :: v2),
      c = '=' ∨ (c ≠ ';' ∧ c ≠ '=' ∧ c.isWhitespace = false) := by
    intro c hc
    rcases List.mem_append.mp hc with h1 | h2
    · exact Or.inr (hnm c h1)
    · rcases List.mem_cons.mp h2 with e | h3
      · exact Or.inl e
      · rcases List.mem_append.mp h3 with h4 | h5
        · exact Or.inr (hv1m c h4)
        · rcases List.mem_cons.mp h5 with e | h6
          · exact Or.inl e
          · exact Or.inr (hv2m c h6)
  have hsemi : ';' ∉ n ++ '=' :: (v1 ++ '=' :: v2) := by
    intro m
    rcases hmem ';' m with e | ⟨h1, _, _⟩
    · exact absurd e (by decide)
    · exact h1 rfl
  have hws : ∀ c ∈ n ++ '=' :: (v1 ++ '=' :: v2), c.isWhitespace = false := by
    intro c hc
    rcases hmem c hc with e | ⟨_, _, h3⟩
    · rw [e]; decide
    · exact h3
  have hnE : '=' ∉ n := fun m => (hnm '=' m).2.1 rfl
  have hv1E : '=' ∉ v1 := fun m => (hv1m '=' m).2.1 rfl
  have hv2E : '=' ∉ v2 := fun m => (hv2m '=' m).2.1 rfl
  have hneI : (n ++ '=' :: (v1 ++ '=' :: v2)).isEmpty = false := by
    cases n with
    | nil => exact absurd rfl hn
    | cons c cs => rfl
  have hsplit : splitOnChar '=' (n ++ '=' :: (v1 ++ '=' :: v2)) = [n, v1, v2] := by
    rw [splitOnChar_append _ _ _ hnE, splitOnChar_append _ _ _ hv1E,
      splitOnChar_not_mem _ _ hv2E]
  have hnemp : n.isEmpty = false := by
    cases n with
    | nil => exact absurd rfl hn
    | cons c cs => rfl
  have hv1emp : v1.isEmpty = false := by
    cases v1 with
    | nil => exact absurd rfl hv1
    | cons c cs => rfl
  unfold parseCookies
  rw [hneI]
  simp only [Bool.false_eq_true, if_false]
  rw [splitOnChar_not_mem _ _ hsemi]
  unfold parseCookiesAux
  dsimp only
  rw [jsTrim_no_ws _ hws, hsplit]
  simp only [List.get?, List.headD, hnemp, hv1emp, Bool.or_self,
    Bool.false_eq_true, if_false, hdec]
  unfold parseCookiesAux
  simp [setJar]

theorem c7_value_from_first_part_witness :
    parseCookies (str "a" ++ '=' :: (str "b" ++ '=' :: str "c")) =
      .ok [(str "a", str "b")] :=
  c7_value_from_first_part (str "a") (str "b") (str "c") (str "b")
    (by decide) (by decide) (by decide) (by decide) (by decide) (by rfl)

theorem headersGet_cons (p : Str × Str) (ps : List (Str × Str)) (m : Str) :
    headersGet (p :: ps) m =
      if lowerStr p.1 = lowerStr m then some p.2 else headersGet ps m := by
  unfold headersGet
  by_cases hp : lowerStr p.1 = lowerStr m <;> simp [List.find?, hp]

theorem headersGet_remove (ps : List (Str × Str)) (n m : Str)
    (h : lowerStr m ≠ lowerStr n) :
    headersGet (headersRemove n ps) m = headersGet ps m := by
  induction ps with
  | nil => rfl
  | cons p ps ih =>
    unfold headersRemove
    by_cases hp : lowerStr p.1 = lowerStr n
    · rw [if_pos hp, ih, headersGet_cons,
        if_neg (by rw [hp]; exact fun e => h e.symm)]
    · rw [if_neg hp, headersGet_cons, headersGet_cons, ih]

theorem headersGet_set_self (hs : List (Str × Str)) (n v m : Str)
    (h : lowerStr m = lowerStr n) :
    headersGet (headersSet hs n v) m = some v := by
  induction hs with
  | nil =>
    unfold headersSet
    rw [headersGet_cons, if_pos h.symm]
  | cons p ps ih =>
    unfold headersSet
    by_cases hp : lowerStr p.1 = lowerStr n
    · rw [if_pos hp, headersGet_cons, if_pos h.symm]
    · rw [if_neg hp, headersGet_cons,
        if_neg (by rw [h]; exact fun e => hp e), ih]

theorem headersGet_set_ne (hs : List (Str × Str)) (n v m : Str)
    (h : lowerStr m ≠ lowerStr n) :
    headersGet (headersSet hs n v) m = headersGet hs m := by
  induction hs with
  | nil =>
    unfold headersSet
    rw [headersGet_cons, if_neg (fun e => h e.symm)]
  | cons p ps ih =>
    unfold headersSet
    by_cases hp : lowerStr p.1 = lowerStr n
    · rw [if_pos hp, headersGet_cons, if_neg (fun e => h (Eq.symm e)),
        headersGet_remove ps n m h, headersGet_cons,
        if_neg (by rw [hp]; exact fun e => h e.symm)]
    · rw [if_neg hp, headersGet_cons, headersGet_cons, ih]

/-- C8: every request classified as bypass — a non-GET method, a path
starting with `/my-account`, or parsed cookies triggering the WooCommerce
bypass — performs exactly one plain origin fetch, no cache lookup and no
cache write, and the origin response is returned unmodified. -/
theorem c8_bypass_only_origin_fetch (w : World) (req : JsRequest) (cookies : Jar)
    (hparse : parseCookies (jsOrL req.cookieHeader []) = .ok cookies)
    (hbp : req.method ≠ str "GET" ∨
      jsStartsWith req.url.pathname (str "/my-account") = true ∨
      shouldBypassCache cookies = true) :
    handleRequest w req = .ok (w.origin, [Effect.fetchPlain]) := by
  unfold handleRequest
  rw [hparse]
  unfold dispatch
  dsimp only
  by_cases hm : req.method = str "GET"
  · rw [if_neg (fun hne => hne hm)]
    by_cases hpa : jsStartsWith req.url.pathname (str "/my-account") = true
    · rw [if_pos hpa]
      rfl
    · rw [if_neg hpa]
      rcases hbp with h | h | h
      · exact absurd hm h
      · exact absurd h hpa
      · rw [if_pos h]
        rfl
  · rw [if_pos hm]
    rfl

def respC8 : JsResponse := ⟨200, str "OK", [], str "origin-body"⟩

def worldC8 : World := ⟨fun _ => none, respC8, respC8⟩

def reqC8 : JsRequest :=
  ⟨str "GET", shopURL (str ""), some (str "woocommerce_cart_hash=abc123")⟩

theorem c8_bypass_only_origin_fetch_witness :
    handleRequest worldC8 reqC8 = .ok (worldC8.origin, [Effect.fetchPlain]) :=
  c8_bypass_only_origin_fetch worldC8 reqC8
    [(str "woocommerce_cart_hash", str "abc123")] (by rfl)
    (Or.inr (Or.inr (by decide)))

def respC2 : JsResponse := ⟨200, str "OK", [], str "hello"⟩

def worldC2 : World := ⟨fun _ => none, respC2, respC2⟩

def reqC2 : JsRequest := ⟨str "POST", shopURL (str ""), none⟩

/-- C2 counterexample: a bypassed request (here a POST) is returned exactly
as fetched from the origin, so when the origin response carries no headers
the client sees neither a cache-status header nor a cache-key header — the
diagnostic headers are not set on every response. -/
theorem c2_counterexample :
    handleRequest worldC2 reqC2 = .ok (respC2, [Effect.fetchPlain]) ∧
    headersGet respC2.headers (str "CF-Cache-Status") = none ∧
    headersGet respC2.headers (str "X-Cache-Key") = none :=
  ⟨by rfl, by rfl, by rfl⟩

/-- C2 (amended): on the caching path (GET, not `/my-account`, no bypass
cookies) the returned response always carries `X-Cache-Key` equal to the
computed cache key and some `CF-Cache-Status` value, on hits and misses
alike; bypassed requests are returned as fetched, without worker-set
diagnostic headers. -/
theorem c2_cache_path_sets_headers (w : World) (req : JsRequest) (cookies : Jar)
    (hparse : parseCookies (jsOrL req.cookieHeader []) = .ok cookies)
    (hm : req.method = str "GET")
    (hpa : jsStartsWith req.url.pathname (str "/my-account") = false)
    (hbp : shouldBypassCache cookies = false) :
    ∀ r effs, handleRequest w req = .ok (r, effs) →
      headersGet r.headers (str "X-Cache-Key") =
        some (generateCacheKey req.url cookies) ∧
      ∃ cstat, headersGet r.headers (str "CF-Cache-Status") = some cstat := by
  intro r effs h
  unfold handleRequest at h
  rw [hparse] at h
  unfold dispatch at h
  dsimp only at h
  rw [if_neg (fun hne => hne hm),
    if_neg (by rw [hpa]; exact Bool.false_ne_true),
    if_neg (by rw [hbp]; exact Bool.false_ne_true)] at h
  cases hl : w.cacheLookup (generateCacheKey req.url cookies) with
  | some stored =>
    rw [hl] at h
    simp only [Except.ok.injEq, Prod.mk.injEq] at h
    obtain ⟨hr, he⟩ := h
    subst hr
    dsimp only
    constructor
    · exact headersGet_set_self _ _ _ _ rfl
    · exact ⟨str "HIT", by
        rw [headersGet_set_ne _ _ _ _ (by decide),
          headersGet_set_self _ _ _ _ rfl]⟩
  | none =>
    rw [hl] at h
    simp only [Except.ok.injEq, Prod.mk.injEq] at h
    obtain ⟨hr, he⟩ := h
    subst hr
    dsimp only
    constructor
    · rw [headersGet_set_ne _ _ _ _ (by decide),
        headersGet_set_self _ _ _ _ rfl]
    · exact ⟨jsOrL (headersGet w.originCf.headers (str "cf-cache-status"))
          (str "MISS"), by
        rw [headersGet_set_ne _ _ _ _ (by decide),
          headersGet_set_ne _ _ _ _ (by decide),
          headersGet_set_self _ _ _ _ rfl]⟩

def reqC2b : JsRequest := ⟨str "GET", shopURL (str ""), none⟩

def missOutcome : JsResponse × List Effect := dispatch worldC2 reqC2b []

theorem c2_cache_path_sets_headers_witness :
    headersGet missOutcome.1.headers (str "X-Cache-Key") =
      some (generateCacheKey reqC2b.url []) ∧
    ∃ cstat, headersGet missOutcome.1.headers (str "CF-Cache-Status") =
      some cstat :=
  c2_cache_path_sets_headers worldC2 reqC2b [] (by rfl) rfl (by decide)
    (by decide) missOutcome.1 missOutcome.2 (by rfl)

/-- C10: on a cache hit the body, status and statusText of the stored entry are
returned unchanged; exactly the headers `CF-Cache-Status` (set to `HIT`) and
`X-Cache-Key` (set to the computed key) are overridden, every other header
of the stored response is preserved, and the only effect is the cache
lookup. -/
theorem c10_hit_preserves_stored (w : World) (req : JsRequest) (cookies : Jar)
    (stored : JsResponse)
    (hparse : parseCookies (jsOrL req.cookieHeader []) = .ok cookies)
    (hm : req.method = str "GET")
    (hpa : jsStartsWith req.url.pathname (str "/my-account") = false)
    (hbp : shouldBypassCache cookies = false)
    (hl : w.cacheLookup (generateCacheKey req.url cookies) = some stored) :
    ∀ r effs, handleRequest w req = .ok (r, effs) →
      r.body = stored.body ∧ r.status = stored.status ∧
      r.statusText = stored.statusText ∧
      effs = [Effect.cacheMatch (generateCacheKey req.url cookies)] ∧
      headersGet r.headers (str "CF-Cache-Status") = some (str "HIT") ∧
      headersGet r.headers (str "X-Cache-Key") =
        some (generateCacheKey req.url cookies) ∧
      ∀ nm : Str, lowerStr nm ≠ lowerStr (str "CF-Cache-Status") →
        lowerStr nm ≠ lowerStr (str "X-Cache-Key") →
        headersGet r.headers nm = headersGet stored.headers nm := by
  intro r effs h
  unfold handleRequest at h
  rw [hparse] at h
  unfold dispatch at h
  dsimp only at h
  rw [if_neg (fun hne => hne hm),
    if_neg (by rw [hpa]; exact Bool.false_ne_true),
    if_neg (by rw [hbp]; exact Bool.false_ne_true), hl] at h
  simp only [Except.ok.injEq, Prod.mk.injEq] at h
  obtain ⟨hr, he⟩ := h
  subst hr
  refine ⟨rfl, rfl, rfl, he.symm, ?_, ?_, ?_⟩
  · rw [headersGet_set_ne _ _ _ _ (by decide), headersGet_set_self _ _ _ _ rfl]
  · exact headersGet_set_self _ _ _ _ rfl
  · intro nm h1 h2
    rw [headersGet_set_ne _ _ _ _ h2, headersGet_set_ne _ _ _ _ h1]

def storedC10 : JsResponse :=
  ⟨200, str "OK", [(str "Content-Type", str "text/html")], str "page"⟩

def worldC10 : World := ⟨fun _ => some storedC10, respC2, respC2⟩

def reqC10 : JsRequest := ⟨str "GET", productURL, none⟩

def hitOutcome : JsResponse × List Effect := dispatch worldC10 reqC10 []

theorem c10_hit_preserves_stored_witness :
    hitOutcome.1.body = storedC10.body ∧
    hitOutcome.1.status = storedC10.status ∧
    hitOutcome.1.statusText = storedC10.statusText ∧
    hitOutcome.2 = [Effect.cacheMatch (generateCacheKey reqC10.url [])] ∧
    headersGet hitOutcome.1.headers (str "CF-Cache-Status") = some (str "HIT") ∧
    headersGet hitOutcome.1.headers (str "X-Cache-Key") =
      some (generateCacheKey reqC10.url []) ∧
    headersGet hitOutcome.1.headers (str "Content-Type") =
      headersGet storedC10.headers (str "Content-Type") := by
  have h := c10_hit_preserves_stored worldC10 reqC10 [] storedC10 (by rfl) rfl
    (by decide) (by decide) (by rfl) hitOutcome.1 hitOutcome.2 (by rfl)
  exact ⟨h.1, h.2.1, h.2.2.1, h.2.2.2.1, h.2.2.2.2.1, h.2.2.2.2.2.1,
    h.2.2.2.2.2.2 (str "Content-Type") (by decide) (by decide)⟩
